import Mathlib

/-!
# Verification of the Linux platform-introspection layer

A shallow embedding of `src/platform_linux.cc` (node's Linux platform
layer): the `/proc/self/stat` scanner behind `Platform::GetMemory`, the
`Platform::GetCPUInfo` dual-source parser, `Platform::GetExecutablePath`,
`Platform::GetInterfaceAddresses`, and the process-title slot
(`Platform::SetProcessTitle` / `Platform::GetProcessTitle`).

Streams read with stdio are modelled as `List Char`; a `fscanf` directive
is modelled by its effect on the stream together with its return value
(`assigned` = 1, `failure` = 0 for a matching failure, `eofIn` = EOF for
an input failure at end of data).  C numeric values are modelled as `Nat`;
conversions through the 32-bit `int`/`unsigned`/`size_t` of the target
platform are value-preserving for the kernel-emitted magnitudes these
routines consume and are kept exact, except where a width effect is
observable (the `(size_t)-1` wrap in `GetExecutablePath`, modelled with
`sizetWrap`, and the 64-bit products in `GetCPUInfo`, reduced mod `2^64`).
-/

namespace NodePlatform

/-- C `isspace`: the characters that `scanf` whitespace directives and
`%d`/`%u` leading-whitespace skipping consume. -/
def isWs (c : Char) : Bool :=
  c = ' ' || c = '\t' || c = '\n' || c = '\r' || c = '\x0b' || c = '\x0c'

/-- Consume a (possibly empty) run of whitespace from the stream. -/
def dropWs : List Char → List Char
  | [] => []
  | c :: rest => if isWs c then dropWs rest else c :: rest

/-- ASCII decimal digit test, as `scanf` integer conversions use it. -/
def isDigitCh (c : Char) : Bool :=
  48 ≤ c.toNat && c.toNat ≤ 57

/-- Numeric value of an ASCII digit. -/
def digitVal (c : Char) : Nat := c.toNat - 48

/-- Consume a maximal run of decimal digits, accumulating their value
(most significant first), returning the value and the rest of the
stream. -/
def scanDigits : List Char → Nat → Nat × List Char
  | [], acc => (acc, [])
  | c :: rest, acc =>
    if isDigitCh c then scanDigits rest (10 * acc + digitVal c)
    else (acc, c :: rest)

/-- Result of one `fscanf(f, "%d ", &itmp)` / `"%u "` directive:
`assigned v rest` models return value 1 with the stream advanced past the
number and the trailing whitespace directive; `failure` models return
value 0 (matching failure: the next non-whitespace character cannot start
an integer); `eofIn` models return value `EOF` (input failure: end of
data reached before any conversion). -/
inductive ScanRes where
  | assigned (v : Nat) (rest : List Char)
  | failure
  | eofIn
  deriving DecidableEq

/-- One `%d `/`%u ` conversion on the stream.  A value written with a
leading `-` is reinterpreted through the 32-bit two's-complement pattern
that `%u` conversion into the `int` temporary produces (never exercised
by kernel-emitted records, which are non-negative). -/
def scanField (s : List Char) : ScanRes :=
  match dropWs s with
  | [] => .eofIn
  | c :: rest =>
    if isDigitCh c then
      match scanDigits (c :: rest) 0 with
      | (v, r) => .assigned v (dropWs r)
    else if c = '+' then
      match rest with
      | [] => .eofIn
      | d :: r2 =>
        if isDigitCh d then
          match scanDigits (d :: r2) 0 with
          | (v, r) => .assigned v (dropWs r)
        else .failure
    else if c = '-' then
      match rest with
      | [] => .eofIn
      | d :: r2 =>
        if isDigitCh d then
          match scanDigits (d :: r2) 0 with
          | (v, r) => .assigned ((2 ^ 32 - v % 2 ^ 32) % 2 ^ 32) (dropWs r)
        else .failure
    else .failure

/-- One numeric field of `Platform::GetMemory`'s scanner, including the
`if (fscanf(...) == 0) goto error;` guard from the source: a matching
failure (return 0) is caught (`none`), but an input failure at end of
data (return `EOF`, which is `-1`, not `0`) is *not* caught — the
function keeps going with the stale value of the temporary `itmp` and a
stream that yields `EOF` from then on. -/
def fieldStep (s : List Char) (itmp : Nat) : Option (List Char × Nat) :=
  match scanField s with
  | .assigned v r => some (r, v)
  | .failure => none
  | .eofIn => some ([], itmp)

/-- A run of `n` consecutive skip fields (`fieldStep` chained through the
`itmp` temporary). -/
def fieldSteps : Nat → List Char → Nat → Option (List Char × Nat)
  | 0, s, itmp => some (s, itmp)
  | n + 1, s, itmp =>
    match fieldStep s itmp with
    | none => none
    | some (s2, v) => fieldSteps n s2 v

/-- Value of `MAXPATHLEN` on the target (`buf` is `static char buf[MAXPATHLEN+1]`,
so valid write indices are `0 .. maxPathLen`). -/
def maxPathLen : Nat := 4096

/-- Outcome of the executable-name loop of `Platform::GetMemory`:
`done buf rest` holds the C-string contents of `buf` (the bytes up to the
`'\0'` that overwrote the terminating space) and the remaining stream;
`overrun` marks the executions in which the loop scans past the end of
its data or of `buf` — at end of input `fscanf("%c", cbuf)` returns `EOF`
(never 0, so the guard in the loop is dead), nothing is assigned, and the
loop keeps advancing `cbuf` through memory beyond the record/buffer. -/
inductive ExeScan where
  | done (buf : List Char) (rest : List Char)
  | overrun
  deriving DecidableEq

/-- The executable-name scan loop from `Platform::GetMemory` (source
lines 117-127): each iteration stores one character at `buf[idx]`; a
`')'` sets `foundExeEnd`; the first `' '` read after `foundExeEnd` is
replaced by `'\0'` and ends the loop.  `found` is never reset. -/
def exeLoop : List Char → Nat → Bool → List Char → ExeScan
  | [], _, _, _ => .overrun
  | c :: rest, idx, found, acc =>
    if maxPathLen < idx then .overrun
    else if c = ')' then exeLoop rest (idx + 1) true (acc ++ [c])
    else if found && c = ' ' then .done acc rest
    else exeLoop rest (idx + 1) found (acc ++ [c])

/-- Result of `Platform::GetMemory`: `ok exeBuf vsize rss` models the
`return 0` path (with the name buffer contents and the two outputs),
`err` the `goto error; return -1` path, and `overrun` the executions in
which the name loop reads/writes past its data or buffer (undefined
behavior in the C source). -/
inductive MemResult where
  | ok (exeBuf : List Char) (vsize : Nat) (rss : Nat)
  | err
  | overrun
  deriving DecidableEq

/-- Shallow embedding of `Platform::GetMemory` (source lines 101-193)
applied to the text of `/proc/self/stat`.  Field order follows the
source: PID, the parenthesised executable name, the state character, 19
skipped numeric fields, the virtual size (`*vsize = (size_t)itmp`), the
resident page count (`*rss = (size_t)itmp * page_size`), and 4 further
skipped numeric fields.  `itmp` is threaded through every numeric scan
because an `EOF` return leaves it stale (see `fieldStep`); it starts
as an indeterminate value, modelled `0`, which no path can observe. -/
def GetMemory (pageSize : Nat) (s : List Char) : MemResult :=
  match fieldStep s 0 with
  | none => .err
  | some (s1, itmp1) =>
    match s1 with
    | [] => .overrun
    | c0 :: s2 =>
      match exeLoop s2 1 false [] with
      | .overrun => .overrun
      | .done nb s3 =>
        let s4 := match s3 with
          | [] => ([] : List Char)
          | _ :: r => dropWs r
        match fieldSteps 19 s4 itmp1 with
        | none => .err
        | some (s5, itmp2) =>
          match fieldStep s5 itmp2 with
          | none => .err
          | some (s6, vs) =>
            match fieldStep s6 vs with
            | none => .err
            | some (s7, rs) =>
              match fieldSteps 4 s7 rs with
              | none => .err
              | some _ => .ok (c0 :: nb) vs (rs * pageSize)

/-! ## `Platform::GetCPUInfo` (source lines 203-277)

Inputs of the embedding: the `sysconf(_SC_CLK_TCK)` value, the text of
`/proc/cpuinfo` and `/proc/stat` as line lists (`none` = `fopen` failed;
lines carry their trailing newline, as `fgets` delivers them), and the
per-core `cpuinfo_max_freq` files as a function from the core counter to
an optional content (`none` = `fopen` failed). -/

/-- Models `strncmp(line, p, |p|) == 0`: does `line` start with `p`? -/
def startsWithL : List Char → List Char → Bool
  | [], _ => true
  | _ :: _, [] => false
  | a :: p, b :: s => a == b && startsWithL p s

/-- A `%*s` directive: skip whitespace, then consume a nonempty run of
non-whitespace characters; `none` models an input failure (nothing
available), which ends the `sscanf`. -/
def spanNonWs : List Char → List Char × List Char
  | [] => ([], [])
  | c :: rest =>
    if isWs c then ([], c :: rest)
    else
      match spanNonWs rest with
      | (a, b) => (c :: a, b)

/-- See `spanNonWs`; `takeWord` is the full `%*s` step. -/
def takeWord (s : List Char) : Option (List Char × List Char) :=
  match dropWs s with
  | [] => none
  | c :: rest =>
    match spanNonWs (c :: rest) with
    | (w, r) => some (w, r)

/-- A `%u`/`%llu` conversion inside `sscanf` (no trailing-whitespace
directive): skip whitespace, require a digit, consume the digit run. -/
def scanU (s : List Char) : Option (Nat × List Char) :=
  match dropWs s with
  | [] => none
  | c :: rest =>
    if isDigitCh c then some (scanDigits (c :: rest) 0)
    else none

/-- Models `strchr(line, c)`: index of the first occurrence of `c`. -/
def idxOf (c : Char) : List Char → Option Nat
  | [] => none
  | d :: rest => if d == c then some 0 else (idxOf c rest).map (· + 1)

/-- The "model name" extraction (source lines 221-223): `strchr(line,':')
+ 2`, `strcpy` to the end of the line, then overwrite the final character
(the newline `fgets` kept) with `'\0'`.  `none` models the indeterminate
result when the line has no `':'` (`strchr` returns `NULL` and the
arithmetic is undefined behavior). -/
def extractModel (line : List Char) : Option (List Char) :=
  match idxOf ':' line with
  | none => none
  | some k => some ((line.drop (k + 2)).dropLast)

/-- Models `sscanf(line, "%*s %*s : %u", &cpuspeed)` on a "cpu MHz" line
(source line 227): two skipped words, a literal `':'`, then an unsigned
conversion; if any step fails nothing is assigned and the previous
`cpuspeed` survives. -/
def parseMHz (line : List Char) (old : Option Nat) : Option Nat :=
  match takeWord line with
  | none => old
  | some (_, r1) =>
    match takeWord r1 with
    | none => old
    | some (_, r2) =>
      match dropWs r2 with
      | [] => old
      | c :: r3 =>
        if c = ':' then
          match scanU r3 with
          | some (v, _) => some v
          | none => old
        else old

/-- State of the `/proc/cpuinfo` pass: the "model name" line count and
the shared fallback model/speed pair (each `none` while the
corresponding `static`-free local is still uninitialised). -/
structure ModelScan where
  numcpus : Nat
  modelName : Option (List Char)
  speed : Option Nat
  deriving DecidableEq

/-- One line of the `/proc/cpuinfo` loop (source lines 217-230): only
the first "model name" line fills the model buffer, and only "cpu MHz"
lines seen while `numcpus == 1` update the fallback speed. -/
def modelScanLine (st : ModelScan) (line : List Char) : ModelScan :=
  if startsWithL ("model name".toList) line then
    if st.numcpus + 1 = 1 then
      { numcpus := st.numcpus + 1, modelName := extractModel line, speed := st.speed }
    else { st with numcpus := st.numcpus + 1 }
  else if startsWithL ("cpu MHz".toList) line then
    if st.numcpus = 1 then { st with speed := parseMHz line st.speed }
    else st
  else st

/-- The whole `/proc/cpuinfo` pass. -/
def modelScan (lines : List (List Char)) : ModelScan :=
  lines.foldl modelScanLine ⟨0, none, none⟩

/-- One reported core: the five times are
`Number::New(ticks_x * multiplier)` products (64-bit), `none` meaning
the corresponding source value was never assigned (indeterminate in C). -/
structure CpuCore where
  modelName : Option (List Char)
  speed : Option Nat
  userMs : Option Nat
  niceMs : Option Nat
  sysMs : Option Nat
  idleMs : Option Nat
  irqMs : Option Nat
  deriving DecidableEq

/-- State of the `/proc/stat` loop: the core counter `i`, the five tick
temporaries (stale across lines, `none` while uninitialised), the shared
`cpuspeed` variable, and the cores appended so far. -/
structure CpuInfoSt where
  i : Nat
  tu : Option Nat
  tn : Option Nat
  ts : Option Nat
  ti : Option Nat
  tx : Option Nat
  speed : Option Nat
  cores : List CpuCore
  deriving DecidableEq

/-- Up to `n` consecutive `%llu` conversions; stops at the first failure
(later variables of the `sscanf` keep their previous values). -/
def scanUs : Nat → List Char → List Nat
  | 0, _ => []
  | n + 1, s =>
    match scanU s with
    | none => []
    | some (v, r) => v :: scanUs n r

/-- Models `sscanf(line, "%*s %llu %llu %llu %llu %*llu %llu", ...)` (source
line 244): the numeric fields successfully converted, in order (the
fifth is parsed but suppressed). -/
def parseStatLine (line : List Char) : List Nat :=
  match takeWord line with
  | none => []
  | some (_, r) => scanUs 6 r

/-- The per-core frequency-file read (source lines 249-257): a missing
file leaves `cpuspeed` alone; a nonempty file whose first line converts
under `%u` replaces it by the kHz value, and the `cpuspeed /= 1000`
runs unconditionally after the `sscanf`, so a non-numeric file divides
the stale value by 1000. -/
def readSpeed (file : Option (List Char)) (old : Option Nat) : Option Nat :=
  match file with
  | none => old
  | some [] => old
  | some (c :: content) =>
    match scanU (c :: content) with
    | some (v, _) => some (v / 1000)
    | none => old.map (fun x => x / 1000)

/-- One processed `cpuN` line of the `/proc/stat` loop: update the tick
temporaries with whatever fields converted, read the frequency file for
core `i`, and append the core object (times are the 64-bit products
`ticks * multiplier`). -/
def statLineStep (mult : Nat) (modelV : Option (List Char))
    (freq : Nat → Option (List Char)) (st : CpuInfoSt) (line : List Char) :
    CpuInfoSt :=
  let vals := parseStatLine line
  let tu := match vals.get? 0 with | some v => some v | none => st.tu
  let tn := match vals.get? 1 with | some v => some v | none => st.tn
  let ts := match vals.get? 2 with | some v => some v | none => st.ts
  let ti := match vals.get? 3 with | some v => some v | none => st.ti
  let tx := match vals.get? 5 with | some v => some v | none => st.tx
  let sp := readSpeed (freq st.i) st.speed
  let core : CpuCore :=
    { modelName := modelV
      speed := sp
      userMs := tu.map (fun t => (t * mult) % 2 ^ 64)
      niceMs := tn.map (fun t => (t * mult) % 2 ^ 64)
      sysMs := ts.map (fun t => (t * mult) % 2 ^ 64)
      idleMs := ti.map (fun t => (t * mult) % 2 ^ 64)
      irqMs := tx.map (fun t => (t * mult) % 2 ^ 64) }
  { i := st.i + 1, tu := tu, tn := tn, ts := ts, ti := ti, tx := tx,
    speed := sp, cores := st.cores ++ [core] }

/-- The `/proc/stat` loop (source lines 237-272): the aggregate line
(prefix `"cpu "`) is skipped, a line not starting with `"cpu"` breaks
the loop, every other line produces one core. -/
def statLoop (mult : Nat) (modelV : Option (List Char))
    (freq : Nat → Option (List Char)) : List (List Char) → CpuInfoSt → CpuInfoSt
  | [], st => st
  | line :: rest, st =>
    if startsWithL ("cpu ".toList) line then statLoop mult modelV freq rest st
    else if startsWithL ("cpu".toList) line then
      statLoop mult modelV freq rest (statLineStep mult modelV freq st line)
    else st

/-- Result of `Platform::GetCPUInfo`: the C return value (literally
`return 0;`, the only return), the length `Array::New(numcpus)` was
created with, and the cores actually stored by the `/proc/stat` loop. -/
structure CpuInfoResult where
  ret : Int
  allocLen : Nat
  cores : List CpuCore
  deriving DecidableEq

/-- Shallow embedding of `Platform::GetCPUInfo` (source lines 203-277).
`multiplier = 1000 / ticks` is the integer quotient the source computes
once (`((uint64_t)1000L / ticks)`) before any tick is converted. -/
def GetCPUInfo (ticks : Nat) (cpuinfoSrc : Option (List (List Char)))
    (statSrc : Option (List (List Char))) (freq : Nat → Option (List Char)) :
    CpuInfoResult :=
  let mult := 1000 / ticks
  let ms : ModelScan :=
    match cpuinfoSrc with
    | none => ⟨0, none, none⟩
    | some lines => modelScan lines
  let st0 : CpuInfoSt := ⟨0, none, none, none, none, none, ms.speed, []⟩
  let stFin :=
    match statSrc with
    | none => st0
    | some lines => statLoop mult ms.modelName freq lines st0
  { ret := 0, allocLen := ms.numcpus, cores := stFin.cores }

/-! ## `Platform::GetExecutablePath` (source lines 196-201) -/

/-- Constant `2^32`: the value range of `size_t` on the 32-bit target, through
which the `ssize_t` result of `readlink` is converted by
`*size = readlink(...)`. -/
def sizetWrap : Nat := 2 ^ 32

/-- Observable outcome of `Platform::GetExecutablePath`: the C return
value, the final `*size`, and the index at which `buffer[*size] = '\0'`
was written (`none` when the function returned before the write).  An
index at or beyond the caller's buffer length is an out-of-bounds
write. -/
structure ExecPathOut where
  ret : Int
  sizeOut : Nat
  nulIndex : Option Nat
  deriving DecidableEq

/-- Shallow embedding of `Platform::GetExecutablePath`.  `link` is the
target of `/proc/self/exe` (`none` = `readlink` fails and returns `-1`,
which `*size`, being `size_t`, receives as `2^32 - 1`).  On success
`readlink` stores at most `*size - 1` bytes and returns the count.  The
guard is the source's `if (*size <= 0) return -1;` — on the unsigned
`*size` the comparison `≤ 0` only catches `0`, exactly as `≤ 0` on
`Nat` does here. -/
def GetExecutablePath (sizeIn : Nat) (link : Option (List Char)) : ExecPathOut :=
  match link with
  | none =>
    let s := sizetWrap - 1
    if s ≤ 0 then { ret := -1, sizeOut := s, nulIndex := none }
    else { ret := 0, sizeOut := s, nulIndex := some s }
  | some target =>
    let s := min target.length (sizeIn - 1)
    if s ≤ 0 then { ret := -1, sizeOut := s, nulIndex := none }
    else { ret := 0, sizeOut := s, nulIndex := some s }

/-! ## `Platform::GetInterfaceAddresses` (source lines 333-404)

The `getifaddrs` list is modelled as a `List IfAddrEnt` in kernel order;
`inet_ntop` is abstracted as the pre-rendered `text` carried by the
address record (its own correctness is outside this embedding).  The v8
object `ret`, whose property order is insertion order, is modelled as an
association list in insertion order. -/

/-- The `sa_family` of an address record: `packet` is `PF_PACKET`, `other`
stands for any family that is neither `AF_INET` nor `AF_INET6` nor
`PF_PACKET`. -/
inductive SaFamily where
  | packet
  | inet
  | inet6
  | other
  deriving DecidableEq

/-- An `ifa_addr` record: its family and its textual presentation form. -/
structure SockAddr where
  family : SaFamily
  text : String
  deriving DecidableEq

/-- One entry of the `getifaddrs` list: interface name, the three flags
the source inspects (`IFF_UP`, `IFF_RUNNING`, `IFF_LOOPBACK`), and the
optional address record (`ifa_addr` may be `NULL`). -/
structure IfAddrEnt where
  ifaName : String
  up : Bool
  running : Bool
  loopback : Bool
  addr : Option SockAddr
  deriving DecidableEq

/-- One surfaced address object `o` (source lines 390-394). -/
structure AddrEntry where
  address : String
  family : String
  internal : Bool
  deriving DecidableEq

/-- The family dispatch of the source (lines 377-388): `AF_INET6` and
`AF_INET` render the address text, anything else (the `PF_PACKET` case
never reaches here) gets the literal unknown-family strings.  `internal`
is `ent->ifa_flags & IFF_LOOPBACK` in every branch. -/
def mkAddrEntry (e : IfAddrEnt) (sa : SockAddr) : AddrEntry :=
  match sa.family with
  | .inet6 => { address := sa.text, family := "IPv6", internal := e.loopback }
  | .inet => { address := sa.text, family := "IPv4", internal := e.loopback }
  | _ => { address := "<unknown sa family>", family := "<unknown>", internal := e.loopback }

/-- The three skip conditions of the loop (source lines 354-367), as one
pass/fail predicate: up AND running, non-null `ifa_addr`, and not the
raw `PF_PACKET` family. -/
def passFilter (e : IfAddrEnt) : Bool :=
  e.up && e.running &&
    (match e.addr with
     | none => false
     | some sa => !(sa.family == SaFamily.packet))

/-- The entry built for a passing record (never applied to a filtered
record; the `none` arm is an arbitrary default). -/
def entryOf (e : IfAddrEnt) : AddrEntry :=
  match e.addr with
  | some sa => mkAddrEntry e sa
  | none => { address := "", family := "", internal := false }

/-- Models `ret->Has(name)`. -/
def containsKey (ret : List (String × List AddrEntry)) (nm : String) : Bool :=
  match ret with
  | [] => false
  | (k, _) :: rest => k == nm || containsKey rest nm

/-- Models `ret->Get(name)` followed by reading the array (first property with
that name; `[]` when absent). -/
def lookupEntries (ret : List (String × List AddrEntry)) (nm : String) :
    List AddrEntry :=
  match ret with
  | [] => []
  | (k, v) :: rest => if k == nm then v else lookupEntries rest nm

/-- Append `e` to the array stored under each property named `nm`. -/
def updateKey (ret : List (String × List AddrEntry)) (nm : String)
    (e : AddrEntry) : List (String × List AddrEntry) :=
  ret.map (fun p => if p.1 == nm then (p.1, p.2 ++ [e]) else p)

/-- Source lines 369-396: fetch or create the per-interface array, then
`ifarr->Set(ifarr->Length(), o)`. -/
def addEntry (ret : List (String × List AddrEntry)) (nm : String)
    (e : AddrEntry) : List (String × List AddrEntry) :=
  if containsKey ret nm then updateKey ret nm e else ret ++ [(nm, [e])]

/-- The enumeration loop of `Platform::GetInterfaceAddresses`. -/
def ifLoop : List IfAddrEnt → List (String × List AddrEntry) →
    List (String × List AddrEntry)
  | [], ret => ret
  | e :: rest, ret =>
    if passFilter e then ifLoop rest (addEntry ret e.ifaName (entryOf e))
    else ifLoop rest ret

/-- Shallow embedding of `Platform::GetInterfaceAddresses` on the
success path of `getifaddrs` (its failure path throws before the loop
and returns no mapping). -/
def GetInterfaceAddresses (ents : List IfAddrEnt) :
    List (String × List AddrEntry) :=
  ifLoop ents []

/-! ## Process title (source lines 63-98)

`static char *process_title` starts as a null pointer; `SetProcessTitle`
frees any previous value and `strdup`s the new one (`PR_SET_NAME` is
defined on this platform, so the `Unsupported` branch is not compiled).
`allocs` counts the live `strdup`ed strings, to express the
release-prior-value obligation. -/

/-- The process-wide title slot plus live-allocation count. -/
structure TitleState where
  title : Option String
  allocs : Nat
  deriving DecidableEq

/-- The zero-initialised static state before `SetupArgs` or any set. -/
def initialTitleState : TitleState := { title := none, allocs := 0 }

/-- Models `Platform::SetProcessTitle` (source lines 74-88):
`if (process_title) free(process_title); process_title = strdup(title);`
(the `prctl` call mutates kernel-side metadata only). -/
def SetProcessTitle (t : String) (s : TitleState) : TitleState :=
  match s.title with
  | some _ => { title := some t, allocs := s.allocs - 1 + 1 }
  | none => { title := some t, allocs := s.allocs + 1 }

/-- Models `Platform::GetProcessTitle` (source lines 91-98): the stored pointer
(`none` models `NULL`) and the reported `*len` (`strlen` on the stored
string, 0 when null). -/
def GetProcessTitle (s : TitleState) : Option String × Nat :=
  match s.title with
  | some t => (some t, t.length)
  | none => (none, 0)

/-! ## Record constructors for the theorems

A "valid status record" is quantified over the digit strings of its
numeric fields: each field is a nonempty list of decimal digits, whose
numeric value is `natOfDs`. -/

/-- The ASCII character of a decimal digit. -/
def digitToChar (d : Nat) : Char := Char.ofNat (48 + d)

/-- The text of a numeric field given by its digits (most significant
first). -/
def renderNum (ds : List Nat) : List Char := ds.map digitToChar

/-- A well-formed numeric field: nonempty, all entries digits. -/
def validDs (ds : List Nat) : Prop := ds ≠ [] ∧ ∀ d ∈ ds, d < 10

instance decValidDs (ds : List Nat) : Decidable (validDs ds) :=
  inferInstanceAs (Decidable (ds ≠ [] ∧ ∀ d ∈ ds, d < 10))

/-- Numeric value of a digit list. -/
def natOfDs (ds : List Nat) : Nat := ds.foldl (fun a d => 10 * a + d) 0

/-- A run of space-terminated numeric fields followed by `tail`. -/
def renderFs (dss : List (List Nat)) (tail : List Char) : List Char :=
  dss.foldr (fun ds acc => renderNum ds ++ ' ' :: acc) tail

/-- Executable names on which the scan loop consumes exactly the
parenthesised region: no `' '` may occur at or after the first `')'`
(`found` is set by every `')'` and never reset, and the loop ends at the
first space read while it is set). -/
def nameOkB : Bool → List Char → Bool
  | _, [] => true
  | found, c :: rest => !(found && c == ' ') && nameOkB (found || c == ')') rest

/-- The full text of a status record: PID, `(name)`, the state
character, 19 skipped fields, vsize, rss, 4 trailing fields, and
arbitrary further content. -/
def statRecord (pid : List Nat) (name : List Char) (stCh : Char)
    (skips : List (List Nat)) (dsV dsR : List Nat) (trail : List (List Nat))
    (extra : List Char) : List Char :=
  renderNum pid ++ ' ' :: '(' :: (name ++ ')' :: ' ' :: stCh :: ' ' ::
    renderFs skips (renderFs [dsV] (renderFs [dsR] (renderFs trail extra))))

/-- A two-core scenario: `/proc/cpuinfo` text with one model-name line
(fallback model "ARMv7 Processor") and one MHz line (fallback speed
800). -/
def ciTwoCore : List (List Char) :=
  ["model name\t: ARMv7 Processor\n".toList, "cpu MHz\t\t: 800.000\n".toList]

/-- A two-core `/proc/stat` text: the aggregate line plus `cpu0` and
`cpu1` counter lines. -/
def statTwoCore : List (List Char) :=
  ["cpu  9 9 9 9 9 9\n".toList, "cpu0 1 2 3 4 5 6\n".toList,
    "cpu1 1 2 3 4 5 6\n".toList]

/-- Frequency files: only core 0 has a readable `cpuinfo_max_freq`
(2400000 kHz). -/
def freqCore0 : Nat → Option (List Char) :=
  fun i => if i = 0 then some ("2400000\n".toList) else none

/-! ## Scanner lemmas -/

theorem isDigitCh_digitToChar {d : Nat} (h : d < 10) :
    isDigitCh (digitToChar d) = true := by
  interval_cases d <;> decide

theorem isWs_digitToChar {d : Nat} (h : d < 10) :
    isWs (digitToChar d) = false := by
  interval_cases d <;> decide

theorem digitVal_digitToChar {d : Nat} (h : d < 10) :
    digitVal (digitToChar d) = d := by
  interval_cases d <;> decide

theorem dropWs_cons_not {c : Char} (s : List Char) (h : isWs c = false) :
    dropWs (c :: s) = c :: s := by
  simp [dropWs, h]

theorem dropWs_cons_ws {c : Char} (s : List Char) (h : isWs c = true) :
    dropWs (c :: s) = dropWs s := by
  simp [dropWs, h]

theorem dropWs_dropWs (s : List Char) : dropWs (dropWs s) = dropWs s := by
  induction s with
  | nil => rfl
  | cons c rest ih =>
    by_cases h : isWs c = true
    · rw [dropWs_cons_ws rest h, ih]
    · rw [dropWs_cons_not rest (by simpa using h),
        dropWs_cons_not rest (by simpa using h)]

theorem scanDigits_render (ds : List Nat) (rest : List Char) (acc : Nat)
    (h : ∀ d ∈ ds, d < 10)
    (hr : ∀ c, rest.head? = some c → isDigitCh c = false) :
    scanDigits (renderNum ds ++ rest) acc =
      (ds.foldl (fun a d => 10 * a + d) acc, rest) := by
  induction ds generalizing acc with
  | nil =>
    cases rest with
    | nil => rfl
    | cons c r => simp [scanDigits, renderNum, hr c rfl]
  | cons d ds' ih =>
    have hd : d < 10 := h d (List.mem_cons_self d ds')
    simp only [renderNum, List.map_cons, List.cons_append, scanDigits,
      isDigitCh_digitToChar hd, if_true, digitVal_digitToChar hd,
      List.foldl_cons]
    exact ih (10 * acc + d) (fun x hx => h x (List.mem_cons_of_mem d hx))

theorem scanField_render (ds : List Nat) (rest : List Char) (h : validDs ds) :
    scanField (renderNum ds ++ ' ' :: rest) = .assigned (natOfDs ds) (dropWs rest) := by
  obtain ⟨hne, hd⟩ := h
  match ds with
  | [] => exact absurd rfl hne
  | d :: ds' =>
    have h0 : d < 10 := hd d (List.mem_cons_self d ds')
    have hsc := scanDigits_render (d :: ds') (' ' :: rest) 0
      hd (by intro c hc; cases hc; decide)
    simp only [renderNum, List.map_cons, List.cons_append] at hsc ⊢
    rw [scanField, dropWs_cons_not _ (isWs_digitToChar h0)]
    simp only [isDigitCh_digitToChar h0, if_true]
    rw [hsc]
    rw [dropWs_cons_ws rest (by decide)]
    rfl

theorem scanField_dropWs (s : List Char) : scanField (dropWs s) = scanField s := by
  rw [scanField, scanField, dropWs_dropWs]

theorem fieldStep_render (ds : List Nat) (rest : List Char) (itmp : Nat)
    (h : validDs ds) :
    fieldStep (renderNum ds ++ ' ' :: rest) itmp = some (dropWs rest, natOfDs ds) := by
  rw [fieldStep, scanField_render ds rest h]

theorem fieldStep_dropWs (s : List Char) (itmp : Nat) :
    fieldStep (dropWs s) itmp = fieldStep s itmp := by
  rw [fieldStep, fieldStep, scanField_dropWs]

theorem fieldSteps_render (dss : List (List Nat)) (tail : List Char) :
    ∀ (s : List Char) (itmp : Nat), (∀ ds ∈ dss, validDs ds) →
    dropWs s = dropWs (renderFs dss tail) →
    ∃ s' v, fieldSteps dss.length s itmp = some (s', v) ∧ dropWs s' = dropWs tail := by
  induction dss with
  | nil =>
    intro s itmp _ hdw
    exact ⟨s, itmp, rfl, by simpa [renderFs] using hdw⟩
  | cons ds dss' ih =>
    intro s itmp hv hdw
    have hds : validDs ds := hv ds (List.mem_cons_self ds dss')
    have h1 : fieldStep s itmp = some (dropWs (renderFs dss' tail), natOfDs ds) := by
      rw [← fieldStep_dropWs s itmp, hdw]
      rw [show renderFs (ds :: dss') tail = renderNum ds ++ ' ' :: renderFs dss' tail from rfl]
      rw [fieldStep_dropWs, fieldStep_render _ _ _ hds]
    obtain ⟨s', v, hrun, hdw'⟩ := ih (dropWs (renderFs dss' tail)) (natOfDs ds)
      (fun x hx => hv x (List.mem_cons_of_mem ds hx)) (dropWs_dropWs _)
    refine ⟨s', v, ?_, hdw'⟩
    rw [List.length_cons]
    rw [show fieldSteps (dss'.length + 1) s itmp =
      (match fieldStep s itmp with
       | none => none
       | some (s2, v2) => fieldSteps dss'.length s2 v2) from rfl]
    rw [h1]
    exact hrun

theorem exeLoop_name (name : List Char) :
    ∀ (found : Bool) (acc : List Char) (idx : Nat) (rest : List Char),
    nameOkB found name = true → idx + name.length + 1 ≤ maxPathLen →
    exeLoop (name ++ ')' :: ' ' :: rest) idx found acc =
      .done (acc ++ (name ++ [')'])) rest := by
  induction name with
  | nil =>
    intro found acc idx rest _ hb
    have hb' : idx + 1 ≤ maxPathLen := by simpa using hb
    have hx1 : ¬ maxPathLen < idx := by omega
    have hx2 : ¬ maxPathLen < idx + 1 := by omega
    simp [exeLoop, hx1, hx2]
  | cons c cs ih =>
    intro found acc idx rest h hb
    have hb' : idx + cs.length + 2 ≤ maxPathLen := by
      simp only [List.length_cons] at hb
      omega
    rw [nameOkB] at h
    simp only [Bool.and_eq_true] at h
    obtain ⟨h1, h2⟩ := h
    simp only [List.cons_append, exeLoop, List.append_eq]
    rw [if_neg (show ¬ maxPathLen < idx by omega)]
    by_cases hc : c = ')'
    · rw [if_pos hc]
      subst hc
      have h2' : nameOkB true cs = true := by simpa using h2
      rw [ih true (acc ++ [')']) (idx + 1) rest h2' (by omega)]
      simp
    · rw [if_neg hc]
      have h3 : (found && decide (c = ' ')) = false := by
        cases hf : found
        · rfl
        · subst hf
          simp only [Bool.not_and, Bool.true_and] at h1
          have hcc : (c == ' ') = false := by
            revert h1
            cases c == ' ' <;> simp
          have hcne : ¬ c = ' ' := by simpa using hcc
          simp [hcne]
      rw [if_neg (show ¬ ((found && decide (c = ' ')) = true) by simp [h3])]
      have h2' : nameOkB found cs = true := by
        simp only [show (c == ')') = false from by simpa using hc,
          Bool.or_false] at h2
        exact h2
      rw [ih found (acc ++ [c]) (idx + 1) rest h2' (by omega)]
      simp

/-- C5: for every valid status record — arbitrary PID, name, state
character, and digit strings for the 19 skipped, the vsize, the rss and
the 4 trailing fields — `GetMemory` returns the virtual-size field
unscaled and the resident-page-count field multiplied by the OS page
size. -/
theorem claim_C5 (ps : Nat) (pid : List Nat) (name : List Char) (stCh : Char)
    (skips : List (List Nat)) (dsV dsR : List Nat) (trail : List (List Nat))
    (extra : List Char)
    (hpid : validDs pid) (hname : nameOkB false name = true)
    (hlen : name.length + 2 ≤ maxPathLen)
    (hsl : skips.length = 19) (hs : ∀ ds ∈ skips, validDs ds)
    (hV : validDs dsV) (hR : validDs dsR)
    (htl : trail.length = 4) (ht : ∀ ds ∈ trail, validDs ds) :
    GetMemory ps (statRecord pid name stCh skips dsV dsR trail extra) =
      .ok ('(' :: (name ++ [')'])) (natOfDs dsV) (natOfDs dsR * ps) := by
  simp only [statRecord]
  set T3 := renderFs trail extra with hT3
  set T2 := renderFs [dsR] T3 with hT2
  set T1 := renderFs [dsV] T2 with hT1
  set F := renderFs skips T1 with hF
  have hT1e : T1 = renderNum dsV ++ ' ' :: T2 := by rw [hT1]; rfl
  have hT2e : T2 = renderNum dsR ++ ' ' :: T3 := by rw [hT2]; rfl
  have h0 : fieldStep (renderNum pid ++ ' ' :: '(' ::
      (name ++ ')' :: ' ' :: stCh :: ' ' :: F)) 0 =
      some ('(' :: (name ++ ')' :: ' ' :: stCh :: ' ' :: F), natOfDs pid) := by
    rw [fieldStep_render pid _ 0 hpid,
      dropWs_cons_not _ (show isWs '(' = false by decide)]
  have h1 : exeLoop (name ++ ')' :: ' ' :: stCh :: ' ' :: F) 1 false [] =
      .done (name ++ [')']) (stCh :: ' ' :: F) := by
    have := exeLoop_name name false [] 1 (stCh :: ' ' :: F) hname (by omega)
    simpa using this
  obtain ⟨s5, v5, hrun, hdw5⟩ := fieldSteps_render skips T1 (dropWs F)
    (natOfDs pid) hs (by rw [hF, dropWs_dropWs])
  rw [hsl] at hrun
  have h3 : fieldStep s5 v5 = some (dropWs T2, natOfDs dsV) := by
    rw [← fieldStep_dropWs s5 v5, hdw5, fieldStep_dropWs, hT1e]
    exact fieldStep_render dsV T2 v5 hV
  have h4 : fieldStep (dropWs T2) (natOfDs dsV) = some (dropWs T3, natOfDs dsR) := by
    rw [fieldStep_dropWs, hT2e]
    exact fieldStep_render dsR T3 (natOfDs dsV) hR
  obtain ⟨s7, v7, hrun7, hdw7⟩ := fieldSteps_render trail extra (dropWs T3)
    (natOfDs dsR) ht (by rw [hT3, dropWs_dropWs])
  rw [htl] at hrun7
  simp only [GetMemory, h0, h1, @dropWs_cons_ws ' ' F (by decide), hrun, h3,
    h4, hrun7]

/-- Witness for C5: a concrete valid record (PID 1234, name "node",
19 skip fields "1", vsize 7777, rss 88, 4 trailing fields "1") parses to
vsize 7777 and rss 88 * 4096. -/
theorem claim_C5_witness :
    GetMemory 4096 (statRecord [1, 2, 3, 4] ("node".toList) 'S'
      [[1], [1], [1], [1], [1], [1], [1], [1], [1], [1], [1], [1], [1], [1],
        [1], [1], [1], [1], [1]] [7, 7, 7, 7] [8, 8] [[1], [1], [1], [1]] []) =
      .ok ("(node)".toList) 7777 (88 * 4096) :=
  claim_C5 4096 [1, 2, 3, 4] ("node".toList) 'S'
    [[1], [1], [1], [1], [1], [1], [1], [1], [1], [1], [1], [1], [1], [1],
      [1], [1], [1], [1], [1]] [7, 7, 7, 7] [8, 8] [[1], [1], [1], [1]] []
    (by decide) (by decide) (by decide) (by decide) (by decide) (by decide)
    (by decide) (by decide) (by decide)

/-- C1: the claim says a record truncated at any field position yields an
error result with no read past the buffer; in the source every
`fscanf` guard tests `== 0`, but `fscanf` reports truncation as `EOF`
(`-1`).  A record truncated inside the name region makes the name loop
scan past the end of its data and buffer, and a record truncated after
later fields returns success built from the stale `itmp` temporary
(here vsize 22 and rss 22 * 4096 from the last parsed field). -/
theorem claim_C1 :
    GetMemory 4096 ("1234 (fo".toList) = .overrun ∧
    GetMemory 4096 ("1234 (foo) S 11 22".toList) =
      .ok ("(foo)".toList) 22 (22 * 4096) :=
  ⟨rfl, rfl⟩

/-- Counterexample to C2: the scanner does not perform rightmost-`')'`
matching — it stops at the first `' '` read after any `')'` — so the
full-length record with executable name `a) b` (which contains
parentheses) is rejected with an error instead of being parsed through
the matching trailing `')'` (which would succeed with vsize 7777 and rss
88 * 4096). -/
theorem claim_C2_counterexample :
    GetMemory 4096
      (("1234 (a) b) S 1 2 3 4 5 6 7 8 9 10 11 12 13 14 15 16 17 18 19 " ++
        "7777 88 1 2 3 4").toList) = .err ∧
    MemResult.err ≠ .ok ("(a) b)".toList) 7777 (88 * 4096) :=
  ⟨rfl, by decide⟩

/-- C2 as amended: the scanner ends the name field at the first space
read after some `')'`; for a name with no space at or after a `')'` —
such as `my(app)` — this is the character following the matching
trailing `')'` of the balanced region, the buffer holds the full
parenthesised region `(my(app))`, and the subsequent fields are parsed
from the correct position (vsize 7777, rss 88 * pageSize). -/
theorem claim_C2_amended (ps : Nat) :
    GetMemory ps
      (("1234 (my(app)) S 1 2 3 4 5 6 7 8 9 10 11 12 13 14 15 16 17 18 19 " ++
        "7777 88 1 2 3 4").toList) = .ok ("(my(app))".toList) 7777 (88 * ps) :=
  rfl

/-- C4: the claim says a failed symlink resolution reports an error; in
the source `readlink`'s `-1` lands in the unsigned `*size`, the
`*size <= 0` guard only catches `0`, so the failure path returns success
(`ret = 0`) with `*size = 2^32 - 1` and writes the terminating NUL at
index `2^32 - 1`, far outside any caller buffer.  The empty-target case
and the success case behave as claimed. -/
theorem claim_C4 :
    (GetExecutablePath 4096 none).ret = 0 ∧
    (GetExecutablePath 4096 none).sizeOut = 2 ^ 32 - 1 ∧
    (GetExecutablePath 4096 none).nulIndex = some (2 ^ 32 - 1) ∧
    (GetExecutablePath 4096 (some [])).ret = -1 ∧
    (GetExecutablePath 4096 (some ("/bin/node".toList))).ret = 0 ∧
    (GetExecutablePath 4096 (some ("/bin/node".toList))).sizeOut = 9 ∧
    (GetExecutablePath 4096 (some ("/bin/node".toList))).nulIndex = some 9 :=
  ⟨rfl, rfl, rfl, rfl, rfl, rfl, rfl⟩

/-- C9: on this platform (`PR_SET_NAME` defined) a set followed by a get
returns the stored title with its length; a second set wins and the
slot keeps exactly one live owned string (the prior one released),
given the invariant that the entering state owns one string per stored
title. -/
theorem claim_C9 (t t2 : String) (s : TitleState)
    (h : s.allocs = if s.title.isSome then 1 else 0) :
    GetProcessTitle (SetProcessTitle t s) = (some t, t.length) ∧
    (SetProcessTitle t s).allocs = 1 ∧
    (SetProcessTitle t2 (SetProcessTitle t s)).title = some t2 ∧
    (SetProcessTitle t2 (SetProcessTitle t s)).allocs = 1 := by
  match s with
  | ⟨none, a⟩ =>
    simp only [Option.isSome_none, Bool.false_eq_true, if_false] at h
    subst h
    exact ⟨rfl, rfl, rfl, rfl⟩
  | ⟨some t0, a⟩ =>
    simp only [Option.isSome_some, if_true] at h
    subst h
    exact ⟨rfl, rfl, rfl, rfl⟩

/-- Witness for C9 at the initial (never-set) state and "worker-1" /
"worker-2". -/
theorem claim_C9_witness :
    GetProcessTitle (SetProcessTitle "worker-1" initialTitleState) =
      (some "worker-1", 8) ∧
    (SetProcessTitle "worker-2" (SetProcessTitle "worker-1" initialTitleState)).title =
      some "worker-2" ∧
    (SetProcessTitle "worker-2" (SetProcessTitle "worker-1" initialTitleState)).allocs = 1 := by
  have h := claim_C9 "worker-1" "worker-2" initialTitleState rfl
  exact ⟨h.1, h.2.2.1, h.2.2.2⟩

/-- C10: before any `SetupArgs` or `SetProcessTitle`, the static
`process_title` pointer is null, and `GetProcessTitle` returns the null
pointer (not an empty string) with reported length 0. -/
theorem claim_C10 : GetProcessTitle initialTitleState = (none, 0) :=
  rfl

/-- C6 as amended: `GetCPUInfo` always returns 0 (it never reports
failure), and an unreadable counters source leaves the stored core list
empty; but an unreadable source does not in general yield an empty
sequence (see the counterexample: cores are still produced from the
counters source when only the descriptor source is unreadable, and the
preallocated array length still tracks the descriptor source when only
the counters source is unreadable). -/
theorem claim_C6 (ticks : Nat) (ci : Option (List (List Char)))
    (st : Option (List (List Char))) (freq : Nat → Option (List Char)) :
    (GetCPUInfo ticks ci st freq).ret = 0 ∧
    (st = none → (GetCPUInfo ticks ci st freq).cores = []) := by
  refine ⟨rfl, ?_⟩
  intro h
  subst h
  rfl

/-- Witness for C6 with both sources unreadable. -/
theorem claim_C6_witness :
    (GetCPUInfo 100 none none (fun _ => none)).ret = 0 ∧
    (GetCPUInfo 100 none none (fun _ => none)).cores = [] := by
  have h := claim_C6 100 none none (fun _ => none)
  exact ⟨h.1, h.2 rfl⟩

/-- Counterexample to C6: with the descriptor source unreadable but the
counters source readable (aggregate line plus one `cpu0` line), the
result is one core, not the empty sequence the claim requires. -/
theorem claim_C6_counterexample :
    (GetCPUInfo 100 none
      (some ["cpu  1 1 1 1 1 1\n".toList, "cpu0 2 3 4 5 6 7\n".toList])
      (fun _ => none)).cores.length = 1 ∧
    (GetCPUInfo 100 none
      (some ["cpu  1 1 1 1 1 1\n".toList, "cpu0 2 3 4 5 6 7\n".toList])
      (fun _ => none)).cores ≠ [] :=
  ⟨rfl, by decide⟩

/-- Counterexample to C3: two cores, descriptor fallback speed 800, and
a frequency file only for core 0 (2400000 kHz).  The claim says core 1
reports the fallback 800; the code reports 2400 for both cores, because
the file-derived value overwrites the single shared `cpuspeed`
variable. -/
theorem claim_C3_counterexample :
    ((GetCPUInfo 100 (some ciTwoCore) (some statTwoCore) freqCore0).cores.map
      (fun c => c.speed)) = [some 2400, some 2400] ∧
    (some 2400 : Option Nat) ≠ some 800 :=
  ⟨rfl, by decide⟩

/-- C3 as amended: a core with a readable frequency file reports that
file's kHz value divided by 1000 and the value replaces the shared
speed; a core without a readable file reports the current shared value —
the descriptor-source fallback only when no earlier core's file was
read (second scenario: no files at all, both cores report the fallback
800). -/
theorem claim_C3_amended :
    ((GetCPUInfo 100 (some ciTwoCore) (some statTwoCore) freqCore0).cores.map
      (fun c => c.speed)) = [some 2400, some 2400] ∧
    ((GetCPUInfo 100 (some ciTwoCore) (some statTwoCore) (fun _ => none)).cores.map
      (fun c => c.speed)) = [some 800, some 800] :=
  ⟨rfl, rfl⟩

/-- Counterexample to C7: with `sysconf(_SC_CLK_TCK)` reporting 300 and
a core line with 7 user ticks, the code reports
`7 * (1000 / 300) = 21` ms, not `7 * 1000 / 300 = 23` ms as the claim's
formula requires. -/
theorem claim_C7_counterexample :
    ((GetCPUInfo 300 none (some ["cpu0 7 0 0 0 0 0\n".toList])
      (fun _ => none)).cores.map (fun c => c.userMs)) = [some 21] ∧
    (21 : Nat) ≠ 7 * 1000 / 300 :=
  ⟨rfl, by decide⟩

theorem scanU_render (ds : List Nat) (rest : List Char) (h : validDs ds) :
    scanU (renderNum ds ++ ' ' :: rest) = some (natOfDs ds, ' ' :: rest) := by
  obtain ⟨hne, hd⟩ := h
  match ds with
  | [] => exact absurd rfl hne
  | d :: ds' =>
    have h0 : d < 10 := hd d (List.mem_cons_self d ds')
    have hsc := scanDigits_render (d :: ds') (' ' :: rest) 0
      hd (by intro c hc; cases hc; decide)
    simp only [renderNum, List.map_cons, List.cons_append] at hsc ⊢
    rw [scanU, dropWs_cons_not _ (isWs_digitToChar h0)]
    simp only [isDigitCh_digitToChar h0, if_true]
    rw [hsc]
    rfl

theorem scanU_dropWs (s : List Char) : scanU (dropWs s) = scanU s := by
  rw [scanU, scanU, dropWs_dropWs]

theorem scanUs_render (dss : List (List Nat)) (tail : List Char) :
    ∀ s : List Char, (∀ ds ∈ dss, validDs ds) →
    dropWs s = dropWs (renderFs dss tail) →
    scanUs dss.length s = dss.map natOfDs := by
  induction dss with
  | nil => intro s _ _; rfl
  | cons ds dss' ih =>
    intro s hv hdw
    have hds : validDs ds := hv ds (List.mem_cons_self ds dss')
    have h1 : scanU s = some (natOfDs ds, ' ' :: renderFs dss' tail) := by
      rw [← scanU_dropWs s, hdw,
        show renderFs (ds :: dss') tail = renderNum ds ++ ' ' :: renderFs dss' tail
          from rfl,
        scanU_dropWs]
      exact scanU_render ds (renderFs dss' tail) hds
    rw [List.length_cons,
      show scanUs (dss'.length + 1) s =
        (match scanU s with
         | none => []
         | some (v, r) => v :: scanUs dss'.length r) from rfl,
      h1]
    show natOfDs ds :: scanUs dss'.length (' ' :: renderFs dss' tail) =
      List.map natOfDs (ds :: dss')
    rw [ih (' ' :: renderFs dss' tail)
      (fun x hx => hv x (List.mem_cons_of_mem ds hx))
      (dropWs_cons_ws _ (by decide))]
    rfl

/-- C7 as amended: for a counters-source line with arbitrary tick fields
(user, nice, system, idle, iowait-skipped, irq), each reported time is
the tick counter multiplied by the integer quotient `1000 / ticks`
(reduced mod `2^64`, the width of the product) — which agrees with
`ticks * 1000 / clockTicks` exactly when `clockTicks` divides 1000, as
the Linux value 100 does, but not in general. -/
theorem claim_C7_amended (ticks : Nat) (u n sy idl w q : List Nat)
    (hu : validDs u) (hn : validDs n) (hsy : validDs sy) (hidl : validDs idl)
    (hw : validDs w) (hq : validDs q) :
    ((GetCPUInfo ticks none
      (some [("cpu0 ".toList ++ renderFs [u, n, sy, idl, w, q] ['\n'])])
      (fun _ => none)).cores.map
      (fun c => (c.userMs, c.niceMs, c.sysMs, c.idleMs, c.irqMs))) =
    [(some ((natOfDs u * (1000 / ticks)) % 2 ^ 64),
      some ((natOfDs n * (1000 / ticks)) % 2 ^ 64),
      some ((natOfDs sy * (1000 / ticks)) % 2 ^ 64),
      some ((natOfDs idl * (1000 / ticks)) % 2 ^ 64),
      some ((natOfDs q * (1000 / ticks)) % 2 ^ 64))] := by
  have hps : parseStatLine ("cpu0 ".toList ++ renderFs [u, n, sy, idl, w, q] ['\n']) =
      [natOfDs u, natOfDs n, natOfDs sy, natOfDs idl, natOfDs w, natOfDs q] := by
    rw [show parseStatLine ("cpu0 ".toList ++ renderFs [u, n, sy, idl, w, q] ['\n']) =
      scanUs 6 (' ' :: renderFs [u, n, sy, idl, w, q] ['\n']) from rfl]
    rw [show (6 : Nat) = [u, n, sy, idl, w, q].length from rfl]
    rw [scanUs_render [u, n, sy, idl, w, q] ['\n'] (' ' :: renderFs [u, n, sy, idl, w, q] ['\n'])
      (by
        intro ds hds
        simp only [List.mem_cons, List.not_mem_nil, or_false] at hds
        rcases hds with h | h | h | h | h | h <;> subst h <;> assumption)
      (dropWs_cons_ws _ (by decide))]
    rfl
  simp only [GetCPUInfo, statLoop,
    show startsWithL ("cpu ".toList)
      ("cpu0 ".toList ++ renderFs [u, n, sy, idl, w, q] ['\n']) = false from rfl,
    show startsWithL ("cpu".toList)
      ("cpu0 ".toList ++ renderFs [u, n, sy, idl, w, q] ['\n']) = true from rfl,
    Bool.false_eq_true, if_false, if_true, statLineStep, hps]
  simp [readSpeed]

/-- Witness for C7 as amended: ticks 100 and counters 7 0 0 0 0 0 give
user 70 ms and 0 for the others. -/
theorem claim_C7_amended_witness :
    ((GetCPUInfo 100 none
      (some [("cpu0 ".toList ++ renderFs [[7], [0], [0], [0], [0], [0]] ['\n'])])
      (fun _ => none)).cores.map
      (fun c => (c.userMs, c.niceMs, c.sysMs, c.idleMs, c.irqMs))) =
    [(some 70, some 0, some 0, some 0, some 0)] := by
  have h := claim_C7_amended 100 [7] [0] [0] [0] [0] [0]
    (by decide) (by decide) (by decide) (by decide) (by decide) (by decide)
  simpa using h

/-! ## Interface-enumeration lemmas -/

theorem lookupEntries_not_contains (r : List (String × List AddrEntry))
    (nm : String) (h : containsKey r nm = false) : lookupEntries r nm = [] := by
  induction r with
  | nil => rfl
  | cons p r' ih =>
    match p with
    | (k, v) =>
      rw [containsKey, Bool.or_eq_false_iff] at h
      rw [lookupEntries, if_neg (by simp [h.1]), ih h.2]

theorem lookupEntries_append (r1 r2 : List (String × List AddrEntry)) (nm : String) :
    lookupEntries (r1 ++ r2) nm =
      if containsKey r1 nm = true then lookupEntries r1 nm else lookupEntries r2 nm := by
  induction r1 with
  | nil => simp [lookupEntries, containsKey]
  | cons p r' ih =>
    match p with
    | (k, v) =>
      by_cases hk : (k == nm) = true
      · simp [lookupEntries, containsKey, hk]
      · have hk' : (k == nm) = false := by simpa using hk
        simp [List.cons_append, lookupEntries, containsKey, hk', ih]

theorem lookupEntries_updateKey_ne (r : List (String × List AddrEntry))
    (nm : String) (e : AddrEntry) (nm' : String) (h : ¬ nm' = nm) :
    lookupEntries (updateKey r nm e) nm' = lookupEntries r nm' := by
  induction r with
  | nil => rfl
  | cons p r' ih =>
    match p with
    | (k, v) =>
      by_cases hk : (k == nm) = true
      · have hk' : k = nm := by simpa using hk
        have hne : (k == nm') = false := by
          subst hk'
          simpa using fun hh => h hh.symm
        simp only [updateKey, List.map_cons, if_pos hk]
        rw [lookupEntries, if_neg (by simp [hne]), lookupEntries,
          if_neg (by simp [hne])]
        exact ih
      · simp only [updateKey, List.map_cons, if_neg hk]
        rw [lookupEntries, lookupEntries]
        by_cases hk2 : (k == nm') = true
        · rw [if_pos hk2, if_pos hk2]
        · rw [if_neg hk2, if_neg hk2]
          exact ih

theorem lookupEntries_updateKey_eq (r : List (String × List AddrEntry))
    (nm : String) (e : AddrEntry) (h : containsKey r nm = true) :
    lookupEntries (updateKey r nm e) nm = lookupEntries r nm ++ [e] := by
  induction r with
  | nil => simp [containsKey] at h
  | cons p r' ih =>
    match p with
    | (k, v) =>
      by_cases hk : (k == nm) = true
      · simp only [updateKey, List.map_cons, if_pos hk]
        rw [lookupEntries, if_pos hk, lookupEntries, if_pos hk]
      · rw [containsKey, Bool.or_eq_true] at h
        have h' : containsKey r' nm = true := by
          rcases h with h | h
          · exact absurd h hk
          · exact h
        simp only [updateKey, List.map_cons, if_neg hk]
        rw [lookupEntries, if_neg hk, lookupEntries, if_neg hk]
        exact ih h'

theorem lookupEntries_addEntry (ret : List (String × List AddrEntry))
    (nm : String) (e : AddrEntry) (nm' : String) :
    lookupEntries (addEntry ret nm e) nm' =
      lookupEntries ret nm' ++ (if nm' = nm then [e] else []) := by
  by_cases hc : containsKey ret nm = true
  · rw [addEntry, if_pos hc]
    by_cases he : nm' = nm
    · subst he
      rw [lookupEntries_updateKey_eq ret nm' e hc, if_pos rfl]
    · rw [lookupEntries_updateKey_ne ret nm e nm' he, if_neg he,
        List.append_nil]
  · rw [addEntry, if_neg hc]
    rw [lookupEntries_append]
    by_cases he : nm' = nm
    · subst he
      rw [if_neg (by simpa using hc), if_pos rfl]
      rw [lookupEntries_not_contains ret nm' (by simpa using hc)]
      rw [lookupEntries, if_pos (by simp)]
      rfl
    · rw [if_neg he, List.append_nil]
      by_cases hc2 : containsKey ret nm' = true
      · rw [if_pos hc2]
      · rw [if_neg hc2]
        rw [lookupEntries_not_contains ret nm' (by simpa using hc2)]
        rw [lookupEntries, if_neg (by simpa using fun hh => he hh.symm)]
        rfl

theorem lookupEntries_ifLoop (ents : List IfAddrEnt) :
    ∀ (ret : List (String × List AddrEntry)) (nm : String),
    lookupEntries (ifLoop ents ret) nm =
      lookupEntries ret nm ++
        (ents.filter (fun e => passFilter e && e.ifaName == nm)).map entryOf := by
  induction ents with
  | nil => intro ret nm; simp [ifLoop]
  | cons e rest ih =>
    intro ret nm
    rw [show ifLoop (e :: rest) ret =
      (if passFilter e then ifLoop rest (addEntry ret e.ifaName (entryOf e))
       else ifLoop rest ret) from rfl]
    by_cases hp : passFilter e = true
    · rw [if_pos hp, ih]
      rw [lookupEntries_addEntry ret e.ifaName (entryOf e) nm]
      by_cases hnm : e.ifaName = nm
      · rw [List.filter_cons_of_pos (by simp [hp, hnm]), if_pos hnm.symm]
        simp
      · rw [List.filter_cons_of_neg (by simp [hp, hnm]),
          if_neg (fun hh => hnm hh.symm), List.append_nil]
    · rw [if_neg hp, ih]
      rw [List.filter_cons_of_neg
        (by simp [(by simpa using hp : passFilter e = false)])]

/-- C8: for every interface list and every interface name, the surfaced
entries under that name are exactly the address entries that pass all
three filters (interface up AND running, non-null address record,
non-packet family), in discovery order; and each built entry's
`internal` flag equals the loopback flag of its owning interface,
independently per entry. -/
theorem claim_C8 (ents : List IfAddrEnt) (nm : String) :
    lookupEntries (GetInterfaceAddresses ents) nm =
      (ents.filter (fun e => passFilter e && e.ifaName == nm)).map entryOf ∧
    ∀ (e : IfAddrEnt) (sa : SockAddr), (mkAddrEntry e sa).internal = e.loopback := by
  constructor
  · have h := lookupEntries_ifLoop ents [] nm
    simpa [GetInterfaceAddresses, lookupEntries] using h
  · intro e sa
    match sa with
    | ⟨.packet, t⟩ => rfl
    | ⟨.inet, t⟩ => rfl
    | ⟨.inet6, t⟩ => rfl
    | ⟨.other, t⟩ => rfl

end NodePlatform
